import Mathlib

/-!
Verification of the dispensary price-scraper core
(`agents/dispensary_scraper`): a shallow embedding of the pure
extraction, assembly, aggregation and loading logic, with theorems
checking the natural-language specification against it.

Conventions of the embedding:
* Python floats are modelled as exact rationals (`ℚ`).  Values parsed
  from decimal text are carried as natural-number data (cents for
  prices, digit-string/fraction-length pairs for THC percentages) and
  converted to `ℚ` at the boundary, which is value-preserving for the
  decimal literals the regexes accept.
* Regular-expression scanning is modelled by hand-rolled scanners on
  `List Char` that implement the exact semantics of the source
  patterns (leftmost match, greedy repetition, alternation order,
  word boundaries); `\w` and `\s` are modelled over ASCII.
* DOM reads, page navigation and the data-store driver are
  environment inputs; their observed values are fields of the input
  structures (`CardInput`, attempt oracles), and everything computed
  from them is translated from the source.
* Timestamps and durations are not modelled.
-/

/-! ## Character classes (ASCII model of `\s`, `\w`, `[0-9]`) -/

/-- ASCII model of the regex class `\s` (Python whitespace). -/
def isPySpace (c : Char) : Bool :=
  c = ' ' || c = '\t' || c = '\n' || c = '\r' || c = '\x0b' || c = '\x0c'

/-- ASCII model of the regex word class `\w`, used for `\b` boundaries. -/
def isWordChar (c : Char) : Bool :=
  c.isAlpha || c.isDigit || c = '_'

/-- Whether the character preceding the scan position (none at the start
of the text) is a word character; `\b` before a word character holds iff
this is false. -/
def prevIsWord : Option Char → Bool
  | none => false
  | some c => isWordChar c

/-- Numeric value of a digit string (as matched by `[0-9]+`). -/
def digitsVal (ds : List Char) : Nat :=
  ds.foldl (fun a c => a * 10 + (c.toNat - '0'.toNat)) 0

/-- The rational value of a decimal literal carried as
(all digits combined, number of fraction digits): `(n, k) ↦ n / 10^k`. -/
def decQ (p : Nat × Nat) : ℚ :=
  (p.1 : ℚ) / (10 : ℚ) ^ p.2

/-- The rational value of a price carried in cents. -/
def centsQ (c : Nat) : ℚ :=
  (c : ℚ) / 100

/-! ## Python `round(x, 2)` (banker's rounding), on exact rationals -/

/-- Round a rational to the nearest integer, ties to the even integer,
modelling Python's `round` on exact values. -/
def roundHalfEven (q : ℚ) : ℤ :=
  let f := ⌊q⌋
  let r := q - (f : ℚ)
  if r < 1/2 then f
  else if 1/2 < r then f + 1
  else if f % 2 = 0 then f else f + 1

/-- Model of Python `round(q, 2)` on exact rationals. -/
def round2 (q : ℚ) : ℚ :=
  ((roundHalfEven (q * 100) : ℚ)) / 100

/-! ## Site constants and URL joining (tools.py) -/

/-- Constant `BASE = "https://www.trulieve.com"` from tools.py. -/
def BASE : String :=
  "https://www.trulieve.com"

/-- Model of `urllib.parse.urljoin(BASE, href)` for the href shapes this
site produces: absolute URLs pass through, site-relative paths are
attached to `BASE`. -/
def urljoinBase (h : String) : String :=
  if h.startsWith ("http://") || h.startsWith ("https://") then h
  else if h.startsWith ("/") then BASE ++ h
  else BASE ++ ("/") ++ h

/-! ## Generic sequence search (model of `str.split(marker, 1)`) -/

/-- Predicate `startsSeq m l`: true iff `m` is a prefix of `l` (plain character
equality). -/
def startsSeq : List Char → List Char → Bool
  | [], _ => true
  | _ :: _, [] => false
  | a :: as, b :: bs => a = b && startsSeq as bs

/-- Predicate `containsSeq m l`: true iff `m` occurs as a contiguous
subsequence of `l`. -/
def containsSeq (m : List Char) : List Char → Bool
  | [] => startsSeq m []
  | c :: cs => startsSeq m (c :: cs) || containsSeq m cs

/-- The suffix after the first occurrence of `m` in `l`
(`l.split(m, 1)[1]` when it exists). -/
def splitAfterFirst (m : List Char) : List Char → Option (List Char)
  | [] => if startsSeq m [] then some [] else none
  | c :: cs =>
    if startsSeq m (c :: cs) then some ((c :: cs).drop m.length)
    else splitAfterFirst m cs

/-- Strip the characters satisfying `p` from both ends of a list
(model of Python `str.strip`). -/
def stripBoth (p : Char → Bool) (l : List Char) : List Char :=
  ((l.dropWhile p).reverse.dropWhile p).reverse

/-- Model of Python `str.strip()` (no arguments: strip whitespace). -/
def pyStripStr (s : String) : String :=
  String.mk (stripBoth isPySpace s.data)

/-! ## `product_slug` (tools.py lines 59-64) -/

/-- The fixed product-path marker `"/product/"`. -/
def productMarker : List Char :=
  ("/product/").data

/-- Function `product_slug(href)` from tools.py: the segment after the first
`"/product/"`, truncated at the first `?` then at the first `#`, and
stripped of surrounding slashes; on any failure (`href` is `None`, or
the marker is missing so the `[1]` index raises) return `href or ""`. -/
def product_slug (href : Option String) : String :=
  match href with
  | none => ""
  | some h =>
    match splitAfterFirst productMarker h.data with
    | some rest =>
      String.mk (stripBoth (fun c => c = '/')
        ((rest.takeWhile (fun c => c ≠ '?')).takeWhile (fun c => c ≠ '#')))
    | none => h

/-! ## Price extraction: `PRICE_RE = \$\s*([0-9]+(?:\.[0-9]{2})?)`
(tools.py line 23) and `extract_price_from_card` (lines 125-150).
A match's numeric value is carried in cents. -/

/-- The match attempt of `PRICE_RE` right after a `$`: skip `\s*`,
require `[0-9]+` (greedy), then optionally consume `\.[0-9]{2}`.
Returns the value in cents and the remaining input.  No backtracking is
needed: the pattern ends after the optional fraction. -/
def priceAfterDollar (cs : List Char) : Option (Nat × List Char) :=
  let cs1 := cs.dropWhile isPySpace
  let ds := cs1.takeWhile Char.isDigit
  if ds.isEmpty then none
  else
    let r := cs1.dropWhile Char.isDigit
    match r with
    | '.' :: d1 :: d2 :: rest =>
      if d1.isDigit && d2.isDigit then
        some (digitsVal ds * 100 + digitsVal [d1, d2], rest)
      else some (digitsVal ds * 100, r)
    | _ => some (digitsVal ds * 100, r)

/-- Fuel-indexed scanner implementing `PRICE_RE.finditer`: try a match at
each position, resuming after the end of each match.  `fuel ≥ length` makes
it total; `priceScan` instantiates it with exactly enough fuel. -/
def priceScanF : Nat → List Char → List Nat
  | 0, _ => []
  | _, [] => []
  | fuel + 1, c :: cs =>
    if c = '$' then
      match priceAfterDollar cs with
      | some (v, rest) => v :: priceScanF fuel rest
      | none => priceScanF fuel cs
    else priceScanF fuel cs

/-- All `PRICE_RE` match values (in cents) of a text, in order:
the model of `[m.group(1) for m in PRICE_RE.finditer(blob)]`. -/
def priceScan (l : List Char) : List Nat :=
  priceScanF l.length l

/-- Declarative counterpart following the spec's words: the value of a
currency-formatted substring at every position of the text where one
occurs (a `$` followed by the pattern), regardless of overlap with
other matches. -/
def currencyVals : List Char → List Nat
  | [] => []
  | c :: cs =>
    (if c = '$' then
      match priceAfterDollar cs with
      | some (v, _) => [v]
      | none => []
    else []) ++ currencyVals cs

/-- Model of `min(vals) if vals else None` over the float values of all
`PRICE_RE` matches in a blob (tools.py lines 149-150). -/
def priceFromBlob (s : String) : Option ℚ :=
  ((priceScan s.data).map centsQ).min?

/-- Model of `extract_price_from_card` (tools.py lines 125-150): gather the text
of up to 4 price sub-elements that contain a `$` (an element whose text
is `None` contributes nothing), join them with spaces, falling back to
the card's inner text when none qualifies; then return the minimum
`PRICE_RE` value.  The elements' observed texts are the input. -/
def extract_price_from_card (elems : List (Option String)) (innerText : String) : Option ℚ :=
  let texts := (elems.take 4).filterMap
    (fun o => o.bind (fun t => if t ≠ "" && t.data.contains '$' then some t else none))
  let blob := if texts.isEmpty then innerText else (" ").intercalate texts
  priceFromBlob blob

/-! ## Size extraction: `SIZE_RE` (tools.py line 24) and `SIZE_MAP` /
`grams_from_size` (lines 29-34) -/

/-- Table `SIZE_MAP` from tools.py, as an association list. -/
def SIZE_MAP : List (String × ℚ) :=
  [("0.5g", 1/2), ("1g", 1), ("2g", 2), ("3.5g", 7/2),
   ("7g", 7), ("10g", 10), ("14g", 14), ("28g", 28)]

/-- Function `grams_from_size(s)` from tools.py: `SIZE_MAP.get((s or "").lower())`. -/
def grams_from_size (s : Option String) : Option ℚ :=
  List.lookup (String.mk ((s.getD ("")).data.map Char.toLower)) SIZE_MAP

/-- The alternation of `SIZE_RE`, in the source's order. -/
def sizeTokens : List String :=
  [("0.5g"), ("1g"), ("2g"), ("3.5g"), ("7g"), ("10g"), ("14g"), ("28g")]

/-- Case-insensitive prefix test: does the text start with the given
(lower-case) pattern characters? -/
def ciStartsWith : List Char → List Char → Bool
  | [], _ => true
  | _ :: _, [] => false
  | a :: as, b :: bs => a = b.toLower && ciStartsWith as bs

/-- The trailing `\b` after a token all of whose characters are word
characters: satisfied iff the text after the token ends or continues
with a non-word character. -/
def boundaryAfterTok (tok : List Char) (l : List Char) : Bool :=
  match l.drop tok.length with
  | [] => true
  | c :: _ => !(isWordChar c)

/-- The `SIZE_RE` alternation attempt at one position: try each token in
the pattern's order; a token matches if it is a case-insensitive prefix
here and the trailing `\b` holds.  Returns `group(1).lower()`, which is
the token itself since the tokens contain no letters other than `g`. -/
def sizeAt (l : List Char) : Option String :=
  sizeTokens.findSome? (fun t =>
    if ciStartsWith t.data l && boundaryAfterTok t.data l then some t else none)

/-- Model of `SIZE_RE.search`: scan left to right; every token starts with a
digit (a word character), so the leading `\b` holds iff the previous
character is absent or a non-word character. -/
def sizeSearchAux : Option Char → List Char → Option String
  | _, [] => none
  | prev, c :: cs =>
    if !prevIsWord prev then
      match sizeAt (c :: cs) with
      | some t => some t
      | none => sizeSearchAux (some c) cs
    else sizeSearchAux (some c) cs

/-- The lowered first `SIZE_RE` match of a text, if any
(tools.py line 290). -/
def sizeSearch (l : List Char) : Option String :=
  sizeSearchAux none l

/-! ## THC extraction: `THC_SINGLE_RE`, `THC_RANGE_RE` (tools.py lines
25-26) and their use in `scrape_category` (lines 321-335).

Both patterns anchor at `\bTHC\b`.  After that anchor the patterns are
deterministic: `[^0-9]*` must stop at the first digit, a number's
greedy digits cannot give back usefully (any shorter parse leaves a
digit where `%` or a non-digit is required), and `[^0-9]+` must stop at
the first digit after the first `%`.  So `re.search` is: try the parse
at each `\bTHC\b` occurrence, first success wins. -/

/-- Greedy parse of `[0-9]+(?:\.[0-9]+)?`: returns (all digits
combined, fraction length) and the rest. -/
def parseNumber (l : List Char) : Option ((Nat × Nat) × List Char) :=
  let ds := l.takeWhile Char.isDigit
  if ds.isEmpty then none
  else
    let r := l.dropWhile Char.isDigit
    match r with
    | '.' :: r2 =>
      let fs := r2.takeWhile Char.isDigit
      if fs.isEmpty then some ((digitsVal ds, 0), r)
      else some ((digitsVal (ds ++ fs), fs.length), r2.dropWhile Char.isDigit)
    | _ => some ((digitsVal ds, 0), r)

/-- Parse `[^0-9]*([0-9]+(?:\.[0-9]+)?)\s*%` from a `\bTHC\b`
occurrence's suffix: skip to the first digit, parse the number, skip
whitespace and require `%`.  Returns the number and the rest after the
`%`. -/
def numPercentAt (occ : List Char) : Option ((Nat × Nat) × List Char) :=
  match parseNumber (occ.dropWhile (fun c => !c.isDigit)) with
  | some (v, r) =>
    match r.dropWhile isPySpace with
    | '%' :: r2 => some (v, r2)
    | _ => none
  | none => none

/-- The `THC_SINGLE_RE` attempt at one occurrence: its group 1. -/
def singleAt (occ : List Char) : Option (Nat × Nat) :=
  (numPercentAt occ).map Prod.fst

/-- The `THC_RANGE_RE` attempt at one occurrence: after the first
number-and-`%`, `[^0-9]+` requires the next character to be a non-digit,
then a second number-and-`%` must follow.  Returns (group 1, group 2). -/
def rangeAt (occ : List Char) : Option ((Nat × Nat) × (Nat × Nat)) :=
  match numPercentAt occ with
  | some (v1, r2) =>
    match r2 with
    | [] => none
    | c :: _ =>
      if c.isDigit then none
      else
        match numPercentAt r2 with
        | some (v2, _) => some (v1, v2)
        | none => none
  | none => none

/-- All suffixes following a `\bTHC\b` occurrence (case-insensitive,
with both word boundaries), in positional order. -/
def thcOccsAux : Option Char → List Char → List (List Char)
  | _, [] => []
  | prev, c1 :: rest1 =>
    (match rest1 with
     | c2 :: c3 :: rest =>
       if !prevIsWord prev && c1.toLower = 't' && c2.toLower = 'h' && c3.toLower = 'c'
           && (match rest with
               | [] => true
               | d :: _ => !isWordChar d) then
         [rest]
       else []
     | _ => []) ++ thcOccsAux (some c1) rest1

/-- All `\bTHC\b` occurrence suffixes of a text. -/
def thcOccs (l : List Char) : List (List Char) :=
  thcOccsAux none l

/-- Model of `THC_RANGE_RE.search`: the first occurrence where the range parse
succeeds. -/
def thcRangeSearch (l : List Char) : Option ((Nat × Nat) × (Nat × Nat)) :=
  (thcOccs l).findSome? rangeAt

/-- Model of `THC_SINGLE_RE.search`: the first occurrence where the single parse
succeeds. -/
def thcSingleSearch (l : List Char) : Option (Nat × Nat) :=
  (thcOccs l).findSome? singleAt

/-- The THC extraction of `scrape_category` (tools.py lines 321-335):
the range pattern's group 1 when the range pattern matches, else the
single pattern's group 1, else absent.  (`float` of a matched group
never raises, so the `try/except` arms are dead.) -/
def thcExtract (l : List Char) : Option ℚ :=
  match thcRangeSearch l with
  | some (v1, _) => some (decQ v1)
  | none => (thcSingleSearch l).map decQ

/-! ## Strain-type extraction (tools.py lines 307-319) -/

/-- One-position attempt of `re.search(r"(Indica|Sativa|Hybrid)", t, re.I)`
(no word boundaries), returning `group(1).capitalize()`. -/
def strainAt (l : List Char) : Option String :=
  if ciStartsWith (("indica").data) l then some ("Indica")
  else if ciStartsWith (("sativa").data) l then some ("Sativa")
  else if ciStartsWith (("hybrid").data) l then some ("Hybrid")
  else none

/-- Leftmost case-insensitive strain keyword of a text, capitalized. -/
def strainKeyword : List Char → Option String
  | [] => none
  | c :: cs =>
    match strainAt (c :: cs) with
    | some s => some s
    | none => strainKeyword cs

/-- Whether `re.search(rf"\b{kw}\b", text, re.I)` matches, for a keyword
of word characters (lower-case input pattern). -/
def wordSearchAux (kw : List Char) : Option Char → List Char → Bool
  | _, [] => false
  | prev, c :: cs =>
    (!prevIsWord prev && ciStartsWith kw (c :: cs) && boundaryAfterTok kw (c :: cs))
      || wordSearchAux kw (some c) cs

/-- The fallback strain scan of `scrape_category`: test the three
keywords in the source's fixed order against the whole card text. -/
def strainFallback (l : List Char) : Option String :=
  if wordSearchAux (("indica").data) none l then some ("Indica")
  else if wordSearchAux (("sativa").data) none l then some ("Sativa")
  else if wordSearchAux (("hybrid").data) none l then some ("Hybrid")
  else none

/-! ## Product assembly: `scrape_category` (tools.py lines 256-360) -/

/-- The observed data of one discovered product link and its card, plus
the values the per-product detail-page (PDP) fallbacks would produce;
all of these are environment reads. -/
structure CardInput where
  linkText : String
  href : Option String
  hasCard : Bool
  cardInnerText : String
  priceElemTexts : List (Option String)
  brandElemText : Option String
  pdpPrice : Option ℚ
  pdpBrand : Option String
  strainElemText : Option String

/-- One assembled product row (the dict built at tools.py lines
343-356; also the shape of the `ProductData` model). -/
structure ProductData where
  state : String
  store : String
  subcategory : String
  name : String
  brand : Option String
  strain_type : Option String
  thc_pct : Option ℚ
  size_raw : Option String
  grams : Option ℚ
  price : Option ℚ
  price_per_g : Option ℚ
  url : Option String
deriving DecidableEq

/-- Model of `card_text = (await card.inner_text()) if await card.count() else name`. -/
def cardText (inp : CardInput) : String :=
  if inp.hasCard then inp.cardInnerText else pyStripStr inp.linkText

/-- Model of `extract_brand_from_card` (tools.py lines 177-197): the first brand
element's stripped text when non-empty. -/
def extract_brand_from_card (brandElemText : Option String) : Option String :=
  brandElemText.bind (fun t =>
    let s := pyStripStr t
    if s = "" then none else some s)

/-- The row `scrape_category` builds for one product link (tools.py
lines 280-356), given the observed card data.  `price_per_g` uses
Python truthiness: `round(price / grams, 2) if price and grams else
None`, so a price of `0.0` (like a missing one) yields `None`. -/
def assembleRow (store subcat : String) (inp : CardInput) : ProductData :=
  let name := pyStripStr inp.linkText
  let url := inp.href.map urljoinBase
  let ctext := cardText inp
  let size := sizeSearch ctext.data
  let grams := grams_from_size size
  let price0 := extract_price_from_card inp.priceElemTexts ctext
  let brand0 := extract_brand_from_card inp.brandElemText
  let fallback := (price0.isNone || brand0.isNone) && inp.href.isSome
  let price1 := if fallback && price0.isNone then inp.pdpPrice else price0
  let brand1 := if fallback && brand0.isNone then
      (match inp.pdpBrand with
       | some b => if b = "" then none else some b
       | none => none)
    else brand0
  let strain := match inp.strainElemText with
    | some t =>
      (match strainKeyword t.data with
       | some k => some k
       | none => strainFallback ctext.data)
    | none => strainFallback ctext.data
  let thc := thcExtract ctext.data
  { state := "FL"
    store := store
    subcategory := subcat
    name := name
    brand := brand1
    strain_type := strain
    thc_pct := thc
    size_raw := size
    grams := grams
    price := price1
    price_per_g :=
      match price1, grams with
      | some p, some g => if p ≠ 0 ∧ g ≠ 0 then some (round2 (p / g)) else none
      | _, _ => none
    url := url }

/-- The deduplication key `(store_name, slug, size, subcategory)`
(tools.py line 338). -/
def cardKey (store subcat : String) (inp : CardInput) :
    String × String × Option String × String :=
  (store, product_slug (some (inp.href.getD (""))),
   sizeSearch (cardText inp).data, subcat)

/-- The product loop of `scrape_category` (tools.py lines 278-359):
skip links with an empty stripped name, skip keys already seen within
this pass, otherwise emit the assembled row and record the key. -/
def scrapeCategoryGo (store subcat : String) :
    List (String × String × Option String × String) → List CardInput → List ProductData
  | _, [] => []
  | seen, inp :: rest =>
    if pyStripStr inp.linkText = "" then scrapeCategoryGo store subcat seen rest
    else
      let k := cardKey store subcat inp
      if k ∈ seen then scrapeCategoryGo store subcat seen rest
      else assembleRow store subcat inp :: scrapeCategoryGo store subcat (k :: seen) rest

/-- Model of `scrape_category` (tools.py): the rows emitted for one store and
category, starting from an empty seen-key set. -/
def scrape_category (store subcat : String) (links : List CardInput) : List ProductData :=
  scrapeCategoryGo store subcat [] links

/-! ## Category orchestration: `scrape_single_category`
(agent.py lines 103-160) -/

/-- Model of `ScrapingResult` (models.py), without the unmodelled timing fields. -/
structure ScrapingResult where
  category : String
  products : List ProductData
  store_count : Nat
  total_products : Nat
  success : Bool
  error_message : Option String
deriving DecidableEq

/-- The store loop of `scrape_single_category` (agent.py lines
117-128): each store's scrape either raises (`none`) or yields a
product list; collect all products in order and count the stores that
did not raise. -/
def scrapeLoop : List (Option (List ProductData)) → List ProductData × Nat
  | [] => ([], 0)
  | none :: rest => scrapeLoop rest
  | some ps :: rest =>
    let r := scrapeLoop rest
    (ps ++ r.1, r.2 + 1)

/-- Model of `scrape_single_category` (agent.py lines 103-160) after the store
list is fixed: build the `ScrapingResult` from the per-store outcomes;
`success` iff at least one product was captured, and an empty result
carries the descriptive message. -/
def scrape_single_category (cat : String) (outcomes : List (Option (List ProductData))) :
    ScrapingResult :=
  let r := scrapeLoop outcomes
  { category := cat
    products := r.1
    store_count := r.2
    total_products := r.1.length
    success := r.1.length != 0
    error_message :=
      if r.1.length != 0 then none
      else some (("No products found for ") ++ cat) }

/-! ## Session aggregation: `ScrapingSession.finalize`
(models.py lines 157-168) -/

/-- Model of `ScrapingSession` (models.py), without the unmodelled timing
fields; `results` is the category-to-result mapping in insertion
order. -/
structure ScrapingSession where
  session_id : String
  results : List (String × ScrapingResult)
  total_products : Nat
  total_stores : Nat
  success : Bool
  errors : List String

/-- The store-collection loop of `finalize`: `all_stores = set(); for
result in results.values(): for product in result.products:
all_stores.add(product.store)`. -/
def sessionCollectStores (rs : List ScrapingResult) : Finset String :=
  rs.foldl (fun acc r => r.products.foldl (fun a p => insert p.store a) acc) ∅

/-- Model of `ScrapingSession.finalize` (models.py lines 157-168), restricted to
its data effect: `total_stores := len(all_stores)`. -/
def ScrapingSession.finalize (s : ScrapingSession) : ScrapingSession :=
  { s with total_stores := (sessionCollectStores (s.results.map Prod.snd)).card }

/-- The spec's description of the finalized store count: the number of
distinct store names appearing across all products of all captured
category results. -/
def distinctStoreCount (rs : List ScrapingResult) : Nat :=
  ((rs.flatMap (fun r => r.products)).map (fun p => p.store)).toFinset.card

/-! ## Bulk loading: `SnowflakeClient.insert_products` and
`insert_products_by_category` (snowflake_client.py lines 128-261).
The data store is an oracle giving each attempt's outcome; alongside
the result we return the number of attempts actually performed, so
"no data-store operation" is expressible. -/

/-- The outcome the data store would give one insert attempt: a
successful `write_pandas` with a row count, or any raised error
(Snowflake errors and unexpected errors retry identically). -/
inductive AttemptOutcome where
  | ok (nrows : Nat)
  | raised (msg : String)

/-- Model of `DatabaseInsertResult` (models.py), without the unmodelled timing
fields. -/
structure DatabaseInsertResult where
  table_name : String
  category : String
  success : Bool
  rows_inserted : Nat
  rows_failed : Nat
  error_message : Option String
deriving DecidableEq

/-- The retry loop of `insert_products` (snowflake_client.py lines
160-229): up to `rem` further attempts starting at index `i`; a raise
on the last attempt returns the failed outcome; the fall-through after
the loop is the source's safety fallback.  The second component counts
attempts performed. -/
def insertFrom (cat table : String) (oracle : Nat → AttemptOutcome) :
    Nat → Nat → DatabaseInsertResult × Nat
  | 0, _ =>
    ({ table_name := table, category := cat, success := false, rows_inserted := 0,
       rows_failed := 0, error_message := some ("Exhausted all retry attempts") }, 0)
  | rem + 1, i =>
    match oracle i with
    | AttemptOutcome.ok n =>
      ({ table_name := table, category := cat, success := true, rows_inserted := n,
         rows_failed := 0, error_message := none }, 1)
    | AttemptOutcome.raised msg =>
      if rem = 0 then
        ({ table_name := table, category := cat, success := false, rows_inserted := 0,
           rows_failed := 0, error_message := some msg }, 1)
      else
        let r := insertFrom cat table oracle rem (i + 1)
        (r.1, r.2 + 1)

/-- Model of `insert_products` (snowflake_client.py lines 128-229): an empty
product list returns a successful zero-row outcome before any
connection or insert attempt; otherwise run the 3-attempt retry loop,
the category taken from the first product. -/
def insert_products (products : List ProductData) (table : String)
    (oracle : Nat → AttemptOutcome) : DatabaseInsertResult × Nat :=
  if products.isEmpty then
    ({ table_name := table, category := "unknown", success := true, rows_inserted := 0,
       rows_failed := 0, error_message := none }, 0)
  else
    insertFrom ((products.head?.map (fun p => p.subcategory)).getD ("unknown"))
      table oracle 3 0

/-- Model of `insert_products_by_category` (snowflake_client.py lines 231-261):
for each category group in order, insert into the mapped table, or —
when the fixed category→table mapping has no entry — produce the
immediate failed outcome without any attempt. -/
def insert_products_by_category (tables : List (String × String))
    (groups : List (String × List ProductData))
    (oracle : String → Nat → AttemptOutcome) :
    List (String × (DatabaseInsertResult × Nat)) :=
  groups.map (fun g =>
    match List.lookup g.1 tables with
    | some table => (g.1, insert_products g.2 table (oracle g.1))
    | none =>
      (g.1, ({ table_name := "unknown", category := g.1, success := false,
               rows_inserted := 0, rows_failed := 0,
               error_message := some (("No table mapping for category: ") ++ g.1) }, 0)))

/-! # Witness inputs -/

/-- A concrete card whose text carries a zero price and a canonical
size token. -/
def cEx1 : CardInput :=
  { linkText := "Sample Flower"
    href := some ("/product/sample-flower")
    hasCard := true
    cardInnerText := "Sample Flower 3.5g $0.00"
    priceElemTexts := []
    brandElemText := none
    pdpPrice := none
    pdpBrand := none
    strainElemText := none }

/-- A concrete card with an ordinary non-zero price. -/
def cEx2 : CardInput :=
  { linkText := "Blue Dream"
    href := some ("/product/blue-dream")
    hasCard := true
    cardInnerText := "Blue Dream 3.5g $35.00"
    priceElemTexts := []
    brandElemText := none
    pdpPrice := none
    pdpBrand := none
    strainElemText := none }

/-- A concrete product row for aggregation examples. -/
def rowEx : ProductData :=
  { state := "FL"
    store := "Store A"
    subcategory := "Whole Flower"
    name := "P"
    brand := none
    strain_type := none
    thc_pct := none
    size_raw := none
    grams := none
    price := none
    price_per_g := none
    url := none }

/-- A session in which the same store appears in two categories. -/
def sessionEx : ScrapingSession :=
  { session_id := "s"
    results :=
      [(("Whole Flower"),
        { category := "Whole Flower", products := [rowEx], store_count := 1,
          total_products := 1, success := true, error_message := none }),
       (("Pre-Rolls"),
        { category := "Pre-Rolls", products := [rowEx], store_count := 1,
          total_products := 1, success := true, error_message := none })]
    total_products := 2
    total_stores := 0
    success := true
    errors := [] }

/-- A table mapping and category grouping for the bulk-loader witness. -/
def tablesEx : List (String × String) :=
  [(("Whole Flower"), ("TL_Scrape_WHOLE_FLOWER"))]

/-- Category groups including one with no table mapping. -/
def groupsEx : List (String × List ProductData) :=
  [(("Whole Flower"), []), (("Vapes"), [rowEx])]

/-- A data-store oracle whose every attempt succeeds with zero rows. -/
def oracleEx : String → Nat → AttemptOutcome :=
  fun _ _ => AttemptOutcome.ok 0

/-! # Lemmas about the price scanner -/

theorem ne_dollar_of_pySpace (c : Char) (h : isPySpace c = true) : c ≠ '$' := by
  intro he
  subst he
  exact absurd h (by decide)

theorem ne_dollar_of_digit (c : Char) (h : c.isDigit = true) : c ≠ '$' := by
  intro he
  subst he
  exact absurd h (by decide)

theorem spaces_digits_split (cs : List Char) :
    ∃ pre, cs = pre ++ (cs.dropWhile isPySpace).dropWhile Char.isDigit
      ∧ ∀ c ∈ pre, c ≠ '$' := by
  refine ⟨cs.takeWhile isPySpace ++ (cs.dropWhile isPySpace).takeWhile Char.isDigit, ?_, ?_⟩
  · rw [List.append_assoc, List.takeWhile_append_dropWhile, List.takeWhile_append_dropWhile]
  · intro c hc
    rcases List.mem_append.mp hc with hc1 | hc2
    · exact ne_dollar_of_pySpace c (List.mem_takeWhile_imp hc1)
    · exact ne_dollar_of_digit c (List.mem_takeWhile_imp hc2)

theorem priceAfterDollar_split (cs : List Char) (v : Nat) (rest : List Char)
    (h : priceAfterDollar cs = some (v, rest)) :
    ∃ pre, cs = pre ++ rest ∧ ∀ c ∈ pre, c ≠ '$' := by
  obtain ⟨pre0, hpre0, hnd0⟩ := spaces_digits_split cs
  simp only [priceAfterDollar] at h
  split at h
  · exact absurd h (by simp)
  · split at h
    · rename_i d1 d2 rest2 heq
      split at h
      · rename_i hdd
        rcases (by simpa using hdd : d1.isDigit = true ∧ d2.isDigit = true) with ⟨hd1, hd2⟩
        simp only [Option.some.injEq, Prod.mk.injEq] at h
        refine ⟨pre0 ++ ['.', d1, d2], ?_, ?_⟩
        · rw [List.append_assoc]
          rw [hpre0, heq, ← h.2]
          rfl
        · intro c hc
          rcases List.mem_append.mp hc with hc1 | hc2
          · exact hnd0 c hc1
          · simp only [List.mem_cons, List.not_mem_nil, or_false] at hc2
            rcases hc2 with rfl | rfl | rfl
            · decide
            · exact ne_dollar_of_digit _ hd1
            · exact ne_dollar_of_digit _ hd2
      · simp only [Option.some.injEq, Prod.mk.injEq] at h
        exact ⟨pre0, by rw [hpre0, ← h.2], hnd0⟩
    · simp only [Option.some.injEq, Prod.mk.injEq] at h
      exact ⟨pre0, by rw [hpre0, ← h.2], hnd0⟩

theorem currencyVals_append_of_no_dollar (pre rest : List Char)
    (h : ∀ c ∈ pre, c ≠ '$') :
    currencyVals (pre ++ rest) = currencyVals rest := by
  induction pre with
  | nil => rfl
  | cons c cs ih =>
    have hc : c ≠ '$' := h c (List.mem_cons_self c cs)
    simp only [List.cons_append, currencyVals, if_neg hc, List.nil_append]
    exact ih (fun x hx => h x (List.mem_cons_of_mem c hx))

theorem priceAfterDollar_rest_le (cs : List Char) (v : Nat) (rest : List Char)
    (h : priceAfterDollar cs = some (v, rest)) : rest.length ≤ cs.length := by
  obtain ⟨pre, hpre, -⟩ := priceAfterDollar_split cs v rest h
  rw [hpre, List.length_append]
  omega

theorem priceScanF_eq_currencyVals :
    ∀ fuel l, l.length ≤ fuel → priceScanF fuel l = currencyVals l := by
  intro fuel
  induction fuel with
  | zero =>
    intro l hl
    rw [List.length_eq_zero.mp (Nat.le_zero.mp hl)]
    rfl
  | succ n ih =>
    intro l hl
    match l with
    | [] => rfl
    | c :: cs =>
      simp only [priceScanF, currencyVals]
      by_cases hc : c = '$'
      · rw [if_pos hc, if_pos hc]
        rcases hpa : priceAfterDollar cs with _ | ⟨vr⟩
        · simp only [List.nil_append]
          exact ih cs (by simpa using Nat.succ_le_succ_iff.mp hl)
        · obtain ⟨v, rest⟩ := vr
          obtain ⟨pre, hpre, hnd⟩ := priceAfterDollar_split cs v rest hpa
          have hrest : currencyVals cs = currencyVals rest := by
            rw [hpre]
            exact currencyVals_append_of_no_dollar pre rest hnd
          rw [hrest]
          simp only [List.cons_append, List.nil_append, List.cons.injEq, true_and]
          exact ih rest (by
            have := priceAfterDollar_rest_le cs v rest hpa
            have hcs : cs.length ≤ n := by simpa using Nat.succ_le_succ_iff.mp hl
            omega)
      · rw [if_neg hc, if_neg hc]
        simp only [List.nil_append]
        exact ih cs (by simpa using Nat.succ_le_succ_iff.mp hl)

theorem priceScan_eq_currencyVals (l : List Char) : priceScan l = currencyVals l :=
  priceScanF_eq_currencyVals l.length l le_rfl

/-- C3: for every text blob, price extraction returns the minimum
numeric value among all currency-formatted substrings (`$`, optional
whitespace as the source pattern allows, digits, optional 2-decimal
fraction) occurring anywhere in the blob, and is absent when the blob
contains no such substring; `"Regular $45.00, Sale $35.00"` yields
35.00 and `"No price here"` yields nothing. -/
theorem claim3_price_minimum (blob : String) :
    priceFromBlob blob = ((currencyVals blob.data).map centsQ).min?
    ∧ priceFromBlob ("Regular $45.00, Sale $35.00") = some 35
    ∧ priceFromBlob ("No price here") = none := by
  refine ⟨?_, ?_, ?_⟩
  · unfold priceFromBlob
    rw [priceScan_eq_currencyVals]
  · have h : priceScan (("Regular $45.00, Sale $35.00").data) = [4500, 3500] := by decide
    unfold priceFromBlob
    rw [h]
    simp only [List.map, List.min?, List.foldl]
    norm_num [centsQ, min_def]
  · have h : priceScan (("No price here").data) = [] := by decide
    unfold priceFromBlob
    rw [h]
    rfl

/-! # Lemmas about `splitAfterFirst` and `product_slug` -/

theorem startsSeq_iff (m : List Char) :
    ∀ l, startsSeq m l = true ↔ ∃ t, l = m ++ t := by
  induction m with
  | nil =>
    intro l
    simp [startsSeq]
  | cons a as ih =>
    intro l
    match l with
    | [] =>
      simp only [startsSeq, Bool.false_eq_true, false_iff]
      rintro ⟨t, ht⟩
      exact absurd ht (by simp)
    | b :: bs =>
      simp only [startsSeq, Bool.and_eq_true, decide_eq_true_eq, ih bs, List.cons_append,
        List.cons.injEq]
      constructor
      · rintro ⟨rfl, t, rfl⟩
        exact ⟨t, rfl, rfl⟩
      · rintro ⟨t, rfl, rfl⟩
        exact ⟨rfl, t, rfl⟩

theorem splitAfterFirst_self_append (m t : List Char) (hm : m ≠ []) :
    splitAfterFirst m (m ++ t) = some t := by
  match m with
  | [] => exact absurd rfl hm
  | a :: as =>
    have hs : startsSeq (a :: as) ((a :: as) ++ t) = true :=
      (startsSeq_iff (a :: as) ((a :: as) ++ t)).mpr ⟨t, rfl⟩
    show splitAfterFirst (a :: as) (a :: (as ++ t)) = some t
    simp only [splitAfterFirst]
    rw [show a :: (as ++ t) = (a :: as) ++ t from rfl, if_pos hs, List.drop_left]

theorem splitAfterFirst_of_first (m : List Char) (hm : m ≠ []) :
    ∀ pre l post, l = pre ++ m ++ post →
      (∀ p2 q2, l = p2 ++ m ++ q2 → pre.length ≤ p2.length) →
      splitAfterFirst m l = some post := by
  intro pre
  induction pre with
  | nil =>
    intro l post hl _
    rw [hl, List.nil_append]
    exact splitAfterFirst_self_append m post hm
  | cons c pre2 ih =>
    intro l post hl hmin
    have hns : startsSeq m l = false := by
      by_contra hcon
      have hs : startsSeq m l = true := by
        cases hb : startsSeq m l
        · exact absurd hb hcon
        · rfl
      obtain ⟨t, ht⟩ := (startsSeq_iff m l).mp hs
      have := hmin [] t (by rw [ht, List.nil_append])
      simp at this
    rw [hl]
    have hcons : (c :: pre2) ++ m ++ post = c :: (pre2 ++ m ++ post) := by simp
    rw [hcons]
    simp only [splitAfterFirst]
    rw [if_neg (by rw [← hcons, ← hl, hns]; simp)]
    exact ih (pre2 ++ m ++ post) post rfl (by
      intro p2 q2 h2
      have := hmin (c :: p2) q2 (by rw [hl, hcons, h2]; simp)
      simpa using this)

theorem splitAfterFirst_none_of_not_contains (m : List Char) :
    ∀ l, containsSeq m l = false → splitAfterFirst m l = none := by
  intro l
  induction l with
  | nil =>
    intro h
    simp only [containsSeq] at h
    simp [splitAfterFirst, h]
  | cons c cs ih =>
    intro h
    simp only [containsSeq, Bool.or_eq_false_iff] at h
    simp only [splitAfterFirst, h.1, Bool.false_eq_true, if_false]
    exact ih h.2

/-- C7: for every URL containing the product-path marker,
`product_slug` returns what follows the first occurrence of the marker,
truncated at the query string and fragment and with surrounding slashes
trimmed; a URL lacking the marker is returned unchanged; an absent URL
yields the empty string. -/
theorem claim7_slug :
    (∀ (h : String) (pre post : List Char),
      h.data = pre ++ productMarker ++ post →
      (∀ p2 q2, h.data = p2 ++ productMarker ++ q2 → pre.length ≤ p2.length) →
      product_slug (some h) = String.mk (stripBoth (fun c => c = '/')
        ((post.takeWhile (fun c => c ≠ '?')).takeWhile (fun c => c ≠ '#'))))
    ∧ (∀ h : String, containsSeq productMarker h.data = false → product_slug (some h) = h)
    ∧ product_slug none = "" := by
  refine ⟨?_, ?_, rfl⟩
  · intro h pre post hdecomp hmin
    have hsplit : splitAfterFirst productMarker h.data = some post :=
      splitAfterFirst_of_first productMarker (by decide) pre h.data post hdecomp hmin
    simp only [product_slug, hsplit]
  · intro h hnc
    have hsplit : splitAfterFirst productMarker h.data = none :=
      splitAfterFirst_none_of_not_contains productMarker h.data hnc
    simp only [product_slug, hsplit]

/-- Witness for C7 at a concrete URL whose marker sits at the start. -/
theorem claim7_slug_witness :
    product_slug (some ("/product/blue-dream/?v=1#f")) = "blue-dream" := by
  have h1 := claim7_slug.1 ("/product/blue-dream/?v=1#f") []
    (("blue-dream/?v=1#f").data) (by decide) (fun p2 q2 _ => Nat.zero_le _)
  rw [h1]
  decide

/-! # Deduplication within one scrape pass -/

/-- C2: within a single store/category pass, two discovered products
(with non-empty names, so both are captured) that share the
deduplication key collapse to the first one regardless of any other
field, while two products whose keys differ in any component are both
emitted. -/
theorem claim2_dedup (store subcat : String) (a b : CardInput)
    (ha : pyStripStr a.linkText ≠ "") (hb : pyStripStr b.linkText ≠ "") :
    (cardKey store subcat a = cardKey store subcat b →
      scrape_category store subcat [a, b] = [assembleRow store subcat a])
    ∧ (cardKey store subcat a ≠ cardKey store subcat b →
      scrape_category store subcat [a, b]
        = [assembleRow store subcat a, assembleRow store subcat b]) := by
  have base : scrape_category store subcat [a, b]
      = assembleRow store subcat a ::
        (if cardKey store subcat b ∈ [cardKey store subcat a] then []
         else [assembleRow store subcat b]) := by
    simp only [scrape_category, scrapeCategoryGo, if_neg ha, if_neg hb,
      if_neg (List.not_mem_nil (cardKey store subcat a))]
  constructor
  · intro hk
    rw [base, if_pos (by rw [List.mem_singleton]; exact hk.symm)]
  · intro hk
    rw [base, if_neg (by rw [List.mem_singleton]; exact fun hf => hk hf.symm)]

/-- Witness for C2: the same card observed twice yields one row. -/
theorem claim2_dedup_witness :
    scrape_category ("Store A") ("Whole Flower") [cEx1, cEx1]
      = [assembleRow ("Store A") ("Whole Flower") cEx1] :=
  (claim2_dedup ("Store A") ("Whole Flower") cEx1 cEx1 (by decide) (by decide)).1 rfl

/-! # Emitted rows are assembled rows -/

theorem mem_scrapeCategoryGo (store subcat : String) :
    ∀ links seen r, r ∈ scrapeCategoryGo store subcat seen links →
      ∃ inp, inp ∈ links ∧ r = assembleRow store subcat inp := by
  intro links
  induction links with
  | nil =>
    intro seen r hr
    exact absurd hr (List.not_mem_nil r)
  | cons inp rest ih =>
    intro seen r hr
    simp only [scrapeCategoryGo] at hr
    by_cases hname : pyStripStr inp.linkText = ""
    · rw [if_pos hname] at hr
      obtain ⟨x, hx, hrx⟩ := ih seen r hr
      exact ⟨x, List.mem_cons_of_mem inp hx, hrx⟩
    · rw [if_neg hname] at hr
      by_cases hseen : cardKey store subcat inp ∈ seen
      · rw [if_pos hseen] at hr
        obtain ⟨x, hx, hrx⟩ := ih seen r hr
        exact ⟨x, List.mem_cons_of_mem inp hx, hrx⟩
      · rw [if_neg hseen] at hr
        rcases List.mem_cons.mp hr with hhead | htail
        · exact ⟨inp, List.mem_cons_self inp rest, hhead⟩
        · obtain ⟨x, hx, hrx⟩ := ih _ r htail
          exact ⟨x, List.mem_cons_of_mem inp hx, hrx⟩

theorem mem_scrape_category (store subcat : String) (links : List CardInput)
    (r : ProductData) (hr : r ∈ scrape_category store subcat links) :
    ∃ inp, inp ∈ links ∧ r = assembleRow store subcat inp :=
  mem_scrapeCategoryGo store subcat links [] r hr

/-! # Row-field projections of `assembleRow` -/

theorem assembleRow_size_raw (store subcat : String) (inp : CardInput) :
    (assembleRow store subcat inp).size_raw = sizeSearch (cardText inp).data := rfl

theorem assembleRow_grams (store subcat : String) (inp : CardInput) :
    (assembleRow store subcat inp).grams
      = grams_from_size (sizeSearch (cardText inp).data) := rfl

theorem assembleRow_price_per_g (store subcat : String) (inp : CardInput) :
    (assembleRow store subcat inp).price_per_g
      = match (assembleRow store subcat inp).price, (assembleRow store subcat inp).grams with
        | some p, some g => if p ≠ 0 ∧ g ≠ 0 then some (round2 (p / g)) else none
        | _, _ => none := rfl

/-! # The size lookup table -/

theorem lookup_SIZE_MAP_pos (s : String) (g : ℚ)
    (h : List.lookup s SIZE_MAP = some g) : 0 < g := by
  simp only [SIZE_MAP, List.lookup] at h
  repeat' split at h
  all_goals try injection h with h2
  all_goals first
    | (rw [← h2]; norm_num)
    | exact absurd h (by simp)

theorem grams_from_size_pos (s : Option String) (g : ℚ)
    (h : grams_from_size s = some g) : 0 < g :=
  lookup_SIZE_MAP_pos _ g h

theorem sizeAt_mem (l : List Char) (s : String) (h : sizeAt l = some s) :
    s ∈ sizeTokens := by
  obtain ⟨t, ht, hts⟩ := List.exists_of_findSome?_eq_some h
  by_cases hc : ciStartsWith t.data l && boundaryAfterTok t.data l
  · rw [if_pos hc] at hts
    injection hts with hts2
    rw [← hts2]
    exact ht
  · rw [if_neg hc] at hts
    exact absurd hts (by simp)

theorem sizeSearchAux_mem :
    ∀ l prev s, sizeSearchAux prev l = some s → s ∈ sizeTokens := by
  intro l
  induction l with
  | nil =>
    intro prev s h
    exact absurd h (by simp [sizeSearchAux])
  | cons c cs ih =>
    intro prev s h
    simp only [sizeSearchAux] at h
    by_cases hp : !prevIsWord prev
    · rw [if_pos hp] at h
      rcases hat : sizeAt (c :: cs) with _ | t
      · rw [hat] at h
        exact ih (some c) s h
      · rw [hat] at h
        injection h with h2
        rw [← h2]
        exact sizeAt_mem (c :: cs) t hat
    · rw [if_neg hp] at h
      exact ih (some c) s h

theorem sizeSearch_mem (l : List Char) (s : String) (h : sizeSearch l = some s) :
    s ∈ sizeTokens :=
  sizeSearchAux_mem l none s h

theorem sizeTokens_lookup :
    ∀ s ∈ sizeTokens, ∃ g, List.lookup s SIZE_MAP = some g ∧ 0 < g := by
  intro s hs
  fin_cases hs
  · exact ⟨1/2, rfl, by norm_num⟩
  · exact ⟨1, rfl, by norm_num⟩
  · exact ⟨2, rfl, by norm_num⟩
  · exact ⟨7/2, rfl, by norm_num⟩
  · exact ⟨7, rfl, by norm_num⟩
  · exact ⟨10, rfl, by norm_num⟩
  · exact ⟨14, rfl, by norm_num⟩
  · exact ⟨28, rfl, by norm_num⟩

theorem sizeTokens_lower_fixed :
    ∀ s ∈ sizeTokens, String.mk (s.data.map Char.toLower) = s := by decide

theorem grams_from_size_of_token (s : String) (hs : s ∈ sizeTokens) :
    grams_from_size (some s) = List.lookup s SIZE_MAP := by
  unfold grams_from_size
  simp only [Option.getD_some]
  rw [sizeTokens_lower_fixed s hs]

/-- C10: every record emitted by the category scrape has `size_raw`
either absent or equal to one of the eight canonical lowercase size
tokens, and `grams` is present exactly when `size_raw` is, in which
case it is the fixed `SIZE_MAP` lookup value for that token, which is
strictly positive. -/
theorem claim10_size_invariant (store subcat : String) (links : List CardInput)
    (r : ProductData) (hr : r ∈ scrape_category store subcat links) :
    (r.size_raw = none ∧ r.grams = none)
    ∨ (∃ s g, r.size_raw = some s ∧ s ∈ sizeTokens
        ∧ List.lookup s SIZE_MAP = some g ∧ r.grams = some g ∧ 0 < g) := by
  obtain ⟨inp, -, rfl⟩ := mem_scrape_category store subcat links r hr
  rw [assembleRow_size_raw, assembleRow_grams]
  rcases hs : sizeSearch (cardText inp).data with _ | s
  · left
    exact ⟨rfl, rfl⟩
  · right
    have hmem : s ∈ sizeTokens := sizeSearch_mem _ s hs
    obtain ⟨g, hg, hgpos⟩ := sizeTokens_lookup s hmem
    refine ⟨s, g, rfl, hmem, hg, ?_, hgpos⟩
    rw [grams_from_size_of_token s hmem, hg]

/-- Witness for C10 on a concrete scraped card carrying `3.5g`. -/
theorem claim10_size_invariant_witness :
    (assembleRow ("Store A") ("Whole Flower") cEx1).size_raw = some ("3.5g")
    ∧ (assembleRow ("Store A") ("Whole Flower") cEx1).grams = some (7/2) := by
  have h := claim10_size_invariant ("Store A") ("Whole Flower") [cEx1]
    (assembleRow ("Store A") ("Whole Flower") cEx1)
    (by
      have heq : scrape_category ("Store A") ("Whole Flower") [cEx1]
          = [assembleRow ("Store A") ("Whole Flower") cEx1] := rfl
      rw [heq]
      exact List.mem_singleton.mpr rfl)
  have hsr : (assembleRow ("Store A") ("Whole Flower") cEx1).size_raw = some ("3.5g") := by
    decide
  rcases h with ⟨h1, -⟩ | ⟨s, g, hs, -, hlook, hg, -⟩
  · rw [hsr] at h1
    exact absurd h1 (by simp)
  · refine ⟨hsr, ?_⟩
    rw [hsr] at hs
    injection hs with hs2
    rw [← hs2] at hlook
    have : some (7/2 : ℚ) = some g := by rw [← hlook]; rfl
    injection this with hval
    rw [hg, ← hval]

/-! # Price-per-gram (C1) -/

/-- C1 counterexample: a card whose text carries the price `$0.00` and
the size `3.5g` is assembled with a present price `0`, a present
positive `grams`, and yet an absent price-per-gram, because the source
computes `round(price / grams, 2) if price and grams else None` and the
float `0.0` is falsy in Python.  This contradicts the claim that the
price-per-gram is present whenever price and grams are present and
grams is positive, including the case `price = 0`. -/
theorem claim1_counterexample :
    scrape_category ("Store A") ("Whole Flower") [cEx1]
      = [assembleRow ("Store A") ("Whole Flower") cEx1]
    ∧ (assembleRow ("Store A") ("Whole Flower") cEx1).price = some 0
    ∧ (assembleRow ("Store A") ("Whole Flower") cEx1).grams = some (7/2)
    ∧ (0 : ℚ) < 7/2
    ∧ (assembleRow ("Store A") ("Whole Flower") cEx1).price_per_g = none := by
  refine ⟨rfl, ?_, rfl, by norm_num, ?_⟩
  · have h : (assembleRow ("Store A") ("Whole Flower") cEx1).price = some (centsQ 0) := rfl
    rw [h]
    simp [centsQ]
  · have h : (assembleRow ("Store A") ("Whole Flower") cEx1).price_per_g
        = (if centsQ 0 ≠ 0 ∧ (7/2 : ℚ) ≠ 0 then some (round2 (centsQ 0 / (7/2))) else none) :=
      rfl
    rw [h]
    norm_num [centsQ]

theorem ppg_match_some_iff (pq gq : Option ℚ) (v : ℚ) :
    (match pq, gq with
     | some p, some g => if p ≠ 0 ∧ g ≠ 0 then some (round2 (p / g)) else none
     | _, _ => none) = some v
    ↔ ∃ p g, pq = some p ∧ gq = some g ∧ p ≠ 0 ∧ g ≠ 0 ∧ v = round2 (p / g) := by
  rcases pq with _ | p
  · show (none : Option ℚ) = some v ↔ _
    simp
  · rcases gq with _ | g
    · show (none : Option ℚ) = some v ↔ _
      constructor
      · intro hv
        exact absurd hv (by simp)
      · rintro ⟨p2, g2, -, hg2, -, -, -⟩
        exact absurd hg2 (by simp)
    · show (if p ≠ 0 ∧ g ≠ 0 then some (round2 (p / g)) else none) = some v ↔ _
      by_cases h0 : p ≠ 0 ∧ g ≠ 0
      · rw [if_pos h0]
        constructor
        · intro hv
          injection hv with hv2
          exact ⟨p, g, rfl, rfl, h0.1, h0.2, hv2.symm⟩
        · rintro ⟨p2, g2, hp2, hg2, -, -, hv2⟩
          injection hp2 with hp3
          injection hg2 with hg3
          rw [hv2, hp3, hg3]
      · rw [if_neg h0]
        constructor
        · intro hv
          exact absurd hv (by simp)
        · rintro ⟨p2, g2, hp2, hg2, hp20, hg20, -⟩
          injection hp2 with hp3
          injection hg2 with hg3
          refine absurd (⟨?_, ?_⟩ : p ≠ 0 ∧ g ≠ 0) h0
          · rw [← hp3] at hp20
            exact hp20
          · rw [← hg3] at hg20
            exact hg20

/-- C1 (amended): for every assembled record, the price-per-gram field
is present iff the price is present and non-zero and the grams are
present (grams from the size lookup are always positive), in which case
it equals the price divided by grams, rounded to two decimals
half-to-even.  The original claim's `price = 0` case instead yields an
absent price-per-gram, because the source guards the computation with
Python truthiness (`if price and grams`). -/
theorem claim1_price_per_gram (store subcat : String) (links : List CardInput)
    (r : ProductData) (hr : r ∈ scrape_category store subcat links) (v : ℚ) :
    r.price_per_g = some v ↔
      ∃ p g, r.price = some p ∧ r.grams = some g ∧ p ≠ 0 ∧ 0 < g ∧ v = round2 (p / g) := by
  obtain ⟨inp, -, rfl⟩ := mem_scrape_category store subcat links r hr
  rw [assembleRow_price_per_g, ppg_match_some_iff]
  constructor
  · rintro ⟨p, g, hp, hg, hp0, -, hv⟩
    have hgpos : 0 < g := by
      rw [assembleRow_grams] at hg
      exact grams_from_size_pos _ g hg
    exact ⟨p, g, hp, hg, hp0, hgpos, hv⟩
  · rintro ⟨p, g, hp, hg, hp0, hgpos, hv⟩
    exact ⟨p, g, hp, hg, hp0, ne_of_gt hgpos, hv⟩

/-- Witness for C1 (amended) on a concrete card priced `$35.00` at
`3.5g`: the price-per-gram is present. -/
theorem claim1_price_per_gram_witness :
    (assembleRow ("Store A") ("Whole Flower") cEx2).price_per_g
      = some (round2 (centsQ 3500 / (7/2))) := by
  refine (claim1_price_per_gram ("Store A") ("Whole Flower") [cEx2]
    (assembleRow ("Store A") ("Whole Flower") cEx2)
    (by
      have heq : scrape_category ("Store A") ("Whole Flower") [cEx2]
          = [assembleRow ("Store A") ("Whole Flower") cEx2] := rfl
      rw [heq]
      exact List.mem_singleton.mpr rfl)
    (round2 (centsQ 3500 / (7/2)))).mpr ?_
  refine ⟨centsQ 3500, 7/2, rfl, rfl, by norm_num [centsQ], by norm_num, rfl⟩

/-! # THC extraction (C4) -/

theorem rangeAt_singleAt (occ : List Char) (a b : Nat × Nat)
    (h : rangeAt occ = some (a, b)) : singleAt occ = some a := by
  unfold rangeAt at h
  split at h
  · rename_i v1 r2 heq
    split at h
    · exact absurd h (by simp)
    · split at h
      · exact absurd h (by simp)
      · split at h
        · rename_i v2 r4 heq2
          injection h with h2
          unfold singleAt
          rw [heq]
          rw [show v1 = a from congrArg Prod.fst h2]
          rfl
        · exact absurd h (by simp)
  · exact absurd h (by simp)

theorem findSome?_single_of_range (occs : List (List Char)) (p : (Nat × Nat) × (Nat × Nat))
    (h : occs.findSome? rangeAt = some p) : occs.findSome? singleAt ≠ none := by
  induction occs with
  | nil => exact absurd h (by simp)
  | cons o os ih =>
    rw [List.findSome?_cons] at h ⊢
    rcases hro : rangeAt o with _ | q
    · rw [hro] at h
      rcases hso : singleAt o with _ | w
      · exact ih h
      · simp
    · rw [hro] at h
      obtain ⟨qa, qb⟩ := q
      rw [rangeAt_singleAt o qa qb hro]
      simp

/-- C4: when the THC range pattern matches a card text, extraction
returns the range match's first bound (converted to its decimal value)
even though the single-value pattern also matches; when the range
pattern does not match, extraction is exactly the single-value search's
value; absent when neither matches.  `"THC 18%-22%"` yields `18`. -/
theorem claim4_thc (t : String) :
    (∀ a b, thcRangeSearch t.data = some (a, b) →
      thcSingleSearch t.data ≠ none ∧ thcExtract t.data = some (decQ a))
    ∧ (thcRangeSearch t.data = none →
      thcExtract t.data = (thcSingleSearch t.data).map decQ)
    ∧ (thcRangeSearch t.data = none → thcSingleSearch t.data = none →
      thcExtract t.data = none)
    ∧ thcExtract (("THC 18%-22%").data) = some 18 := by
  refine ⟨?_, ?_, ?_, ?_⟩
  · intro a b hr
    refine ⟨findSome?_single_of_range _ (a, b) hr, ?_⟩
    unfold thcExtract
    rw [show thcRangeSearch t.data = some (a, b) from hr]
  · intro hr
    unfold thcExtract
    rw [hr]
  · intro hr hs
    unfold thcExtract
    rw [hr, hs]
    rfl
  · have hr : thcRangeSearch (("THC 18%-22%").data) = some ((18, 0), (22, 0)) := by decide
    unfold thcExtract
    rw [hr]
    norm_num [decQ]

/-- Witness for C4 on a text where both patterns match: the range's
lower bound 18 wins over the single-value match. -/
theorem claim4_thc_witness :
    thcSingleSearch (("THC 18%-22%").data) ≠ none
    ∧ thcExtract (("THC 18%-22%").data) = some (decQ (18, 0)) :=
  (claim4_thc ("THC 18%-22%")).1 (18, 0) (22, 0) (by decide)

/-! # Category aggregation (C5) -/

theorem filterMap_id_cons_some (ps : List ProductData)
    (os : List (Option (List ProductData))) :
    List.filterMap id (some ps :: os) = ps :: List.filterMap id os := rfl

theorem filterMap_id_cons_none (os : List (Option (List ProductData))) :
    List.filterMap id ((none : Option (List ProductData)) :: os) = List.filterMap id os := rfl

theorem filterMap_id_length_all_some (outs : List (Option (List ProductData)))
    (h : ∀ o ∈ outs, ∃ ps, o = some ps) :
    (List.filterMap id outs).length = outs.length := by
  induction outs with
  | nil => rfl
  | cons o os ih =>
    obtain ⟨ps, rfl⟩ := h o (List.mem_cons_self o os)
    rw [filterMap_id_cons_some]
    simp only [List.length_cons]
    rw [ih (fun x hx => h x (List.mem_cons_of_mem _ hx))]

theorem scrapeLoop_append (xs ys : List (Option (List ProductData))) :
    scrapeLoop (xs ++ ys)
      = ((scrapeLoop xs).1 ++ (scrapeLoop ys).1, (scrapeLoop xs).2 + (scrapeLoop ys).2) := by
  induction xs with
  | nil => simp [scrapeLoop]
  | cons o os ih =>
    rcases o with _ | ps
    · simpa [scrapeLoop] using ih
    · simp only [List.cons_append, scrapeLoop, List.append_eq]
      rw [ih, Prod.mk.injEq]
      refine ⟨by simp [List.append_assoc], by omega⟩

theorem scrapeLoop_counts (outs : List (Option (List ProductData))) :
    (scrapeLoop outs).1.length = ((List.map List.length (List.filterMap id outs)).sum)
    ∧ (scrapeLoop outs).2 = (List.filterMap id outs).length := by
  induction outs with
  | nil => exact ⟨rfl, rfl⟩
  | cons o os ih =>
    rcases o with _ | ps
    · rw [filterMap_id_cons_none]
      simpa [scrapeLoop] using ih
    · rw [filterMap_id_cons_some]
      simp only [scrapeLoop, List.map_cons, List.sum_cons, List.length_append,
        List.length_cons]
      exact ⟨by rw [ih.1], by rw [ih.2]⟩

/-- C5: when exactly one store's scrape raises and every other store
yields at least one product (so there are at least two stores), the
category result is successful with `store_count = N − 1` and
`total_products` the sum of the non-raising stores' product counts;
in general `success` holds iff at least one product was captured, and a
zero-product result carries the descriptive error message. -/
theorem claim5_category_result (cat : String)
    (pre post : List (Option (List ProductData)))
    (hall : ∀ o ∈ pre ++ post, ∃ ps, o = some ps ∧ ps ≠ [])
    (hne : pre ++ post ≠ []) :
    (scrape_single_category cat (pre ++ none :: post)).success = true
    ∧ (scrape_single_category cat (pre ++ none :: post)).store_count
        = (pre ++ none :: post).length - 1
    ∧ (scrape_single_category cat (pre ++ none :: post)).total_products
        = ((List.map List.length (List.filterMap id (pre ++ post))).sum)
    ∧ (∀ outs, ((scrape_single_category cat outs).success = true
        ↔ 0 < (scrape_single_category cat outs).total_products))
    ∧ (∀ outs, (scrape_single_category cat outs).total_products = 0 →
        (scrape_single_category cat outs).error_message
          = some (("No products found for ") ++ cat)) := by
  have hjoin : scrapeLoop (pre ++ none :: post)
      = ((scrapeLoop (pre ++ post)).1, (scrapeLoop (pre ++ post)).2) := by
    have h1 : scrapeLoop ((none : Option (List ProductData)) :: post) = scrapeLoop post := rfl
    rw [scrapeLoop_append, h1, scrapeLoop_append]
  have hsome : ∀ o ∈ pre ++ post, ∃ ps, o = some ps := by
    intro o ho
    obtain ⟨ps, hps, -⟩ := hall o ho
    exact ⟨ps, hps⟩
  have hlen : (scrapeLoop (pre ++ post)).2 = (pre ++ post).length := by
    rw [(scrapeLoop_counts (pre ++ post)).2, filterMap_id_length_all_some _ hsome]
  have hpos : 0 < (scrapeLoop (pre ++ post)).1.length := by
    rcases hx : pre ++ post with _ | ⟨o, os⟩
    · exact absurd hx hne
    · obtain ⟨ps, hps, hpsne⟩ := hall o (by rw [hx]; exact List.mem_cons_self o os)
      rw [(scrapeLoop_counts (o :: os)).1, hps, filterMap_id_cons_some]
      simp only [List.map_cons, List.sum_cons]
      have hp2 : 0 < ps.length := List.length_pos.mpr hpsne
      omega
  refine ⟨?_, ?_, ?_, ?_, ?_⟩
  · show ((scrapeLoop (pre ++ none :: post)).1.length != 0) = true
    rw [hjoin]
    simpa [bne_iff_ne] using Nat.pos_iff_ne_zero.mp hpos
  · show (scrapeLoop (pre ++ none :: post)).2 = _
    rw [hjoin]
    simp only [hlen, List.length_append, List.length_cons]
    omega
  · show (scrapeLoop (pre ++ none :: post)).1.length = _
    rw [hjoin]
    exact (scrapeLoop_counts (pre ++ post)).1
  · intro outs
    show ((scrapeLoop outs).1.length != 0) = true ↔ 0 < (scrapeLoop outs).1.length
    rw [bne_iff_ne]
    exact ⟨Nat.pos_of_ne_zero, Nat.pos_iff_ne_zero.mp⟩
  · intro outs h0
    have h0n : (scrapeLoop outs).1.length = 0 := h0
    show (if (scrapeLoop outs).1.length != 0 then none
      else some (("No products found for ") ++ cat)) = _
    rw [h0n]
    rfl

/-- Witness for C5: three stores, the middle one raising, the others
yielding one and two products. -/
theorem claim5_category_result_witness :
    (scrape_single_category ("Whole Flower")
        [some [rowEx], none, some [rowEx, rowEx]]).success = true
    ∧ (scrape_single_category ("Whole Flower")
        [some [rowEx], none, some [rowEx, rowEx]]).store_count = 2
    ∧ (scrape_single_category ("Whole Flower")
        [some [rowEx], none, some [rowEx, rowEx]]).total_products = 3 := by
  have h := claim5_category_result ("Whole Flower") [some [rowEx]] [some [rowEx, rowEx]]
    (by
      intro o ho
      simp only [List.cons_append, List.nil_append, List.mem_cons,
        List.not_mem_nil, or_false] at ho
      rcases ho with rfl | rfl
      · exact ⟨[rowEx], rfl, by simp⟩
      · exact ⟨[rowEx, rowEx], rfl, by simp⟩)
    (by simp)
  exact ⟨h.1, h.2.1, h.2.2.1⟩

/-! # Distinct-store count at session finalization (C6) -/

theorem foldl_insert_stores (ps : List ProductData) :
    ∀ acc : Finset String,
      ps.foldl (fun a p => insert p.store a) acc
        = acc ∪ (ps.map (fun p => p.store)).toFinset := by
  induction ps with
  | nil =>
    intro acc
    simp
  | cons p rest ih =>
    intro acc
    simp only [List.foldl_cons, List.map_cons, List.toFinset_cons]
    rw [ih (insert p.store acc)]
    ext x
    simp only [Finset.mem_union, Finset.mem_insert]
    tauto

theorem foldl_collect_stores (rs : List ScrapingResult) :
    ∀ acc : Finset String,
      rs.foldl (fun acc r => r.products.foldl (fun a p => insert p.store a) acc) acc
        = acc ∪ ((rs.flatMap (fun r => r.products)).map (fun p => p.store)).toFinset := by
  induction rs with
  | nil =>
    intro acc
    simp
  | cons r rest ih =>
    intro acc
    simp only [List.foldl_cons, List.flatMap_cons, List.map_append, List.toFinset_append]
    rw [ih, foldl_insert_stores]
    ext x
    simp only [Finset.mem_union]
    tauto

theorem sessionCollectStores_eq (rs : List ScrapingResult) :
    sessionCollectStores rs
      = ((rs.flatMap (fun r => r.products)).map (fun p => p.store)).toFinset := by
  unfold sessionCollectStores
  rw [foldl_collect_stores]
  simp

/-- C6: after finalization, `total_stores` is the number of distinct
store names appearing across all products of all category results in
the session; on a concrete session where the same store occurs in two
categories it equals 1, not the sum 2 of the per-category store
counts. -/
theorem claim6_total_stores (s : ScrapingSession) :
    (ScrapingSession.finalize s).total_stores = distinctStoreCount (s.results.map Prod.snd)
    ∧ (ScrapingSession.finalize sessionEx).total_stores = 1
    ∧ (List.map (fun r => r.store_count) (sessionEx.results.map Prod.snd)).sum = 2 := by
  refine ⟨?_, ?_, rfl⟩
  · show (sessionCollectStores (s.results.map Prod.snd)).card = _
    rw [sessionCollectStores_eq]
    rfl
  · show (sessionCollectStores (sessionEx.results.map Prod.snd)).card = 1
    decide

/-! # Bulk loading (C8, C9) -/

/-- C8: bulk-loading an empty product list returns a successful
outcome with zero rows inserted, and performs zero data-store
operations (the second component counts the attempts made). -/
theorem claim8_empty_insert (table : String) (oracle : Nat → AttemptOutcome) :
    insert_products [] table oracle
      = ({ table_name := table, category := "unknown", success := true,
           rows_inserted := 0, rows_failed := 0, error_message := none }, 0) := rfl

/-- C9: a category group with no entry in the category→table mapping
yields an immediate failed outcome carrying an error message, with zero
data-store attempts, while every mapped category in the same call is
still attempted (its entry is exactly the result of its insert). -/
theorem claim9_missing_mapping (tables : List (String × String))
    (groups : List (String × List ProductData))
    (oracle : String → Nat → AttemptOutcome)
    (cat : String) (prods : List ProductData)
    (hmem : (cat, prods) ∈ groups) (hmiss : List.lookup cat tables = none) :
    ((cat, ({ table_name := "unknown", category := cat, success := false,
              rows_inserted := 0, rows_failed := 0,
              error_message := some (("No table mapping for category: ") ++ cat) }, 0))
      ∈ insert_products_by_category tables groups oracle)
    ∧ (∀ c2 p2 table, (c2, p2) ∈ groups → List.lookup c2 tables = some table →
        (c2, insert_products p2 table (oracle c2))
          ∈ insert_products_by_category tables groups oracle) := by
  constructor
  · refine List.mem_map.mpr ⟨(cat, prods), hmem, ?_⟩
    simp only [hmiss]
  · intro c2 p2 table hm2 hl2
    refine List.mem_map.mpr ⟨(c2, p2), hm2, ?_⟩
    simp only [hl2]

/-- Witness for C9: the unmapped category `"Vapes"` gets the immediate
failed outcome with zero attempts. -/
theorem claim9_missing_mapping_witness :
    (("Vapes"), ({ table_name := "unknown", category := "Vapes", success := false,
                   rows_inserted := 0, rows_failed := 0,
                   error_message := some (("No table mapping for category: ") ++ "Vapes") }, 0))
      ∈ insert_products_by_category tablesEx groupsEx oracleEx :=
  (claim9_missing_mapping tablesEx groupsEx oracleEx ("Vapes") [rowEx]
    (by decide) (by decide)).1
